import Mathlib

/-
Verification of the grammar-checker add-on (openai-grammar-checker.js).

The script's logic is embedded shallowly:
  * JSON values and `JSON.parse` are modelled by the `Json` inductive and the
    fueled recursive-descent parser `jsonParse` (standard JSON grammar:
    the four JSON whitespace characters, strings with escapes, strict
    number syntax, arrays, objects; on duplicate object keys the later one
    wins on lookup, as in JavaScript).  `\uXXXX` escapes are decoded with
    `Char.ofNat`; lone surrogates, which Lean's `Char` cannot represent,
    fall back to `Char.ofNat`'s default and are outside the modelled
    fragment, as is the UTF-16 length of non-ASCII strings.
  * Strings are handled as `List Char`; `String` wrappers are provided at
    the boundaries.
  * The regular-expression operations of the script are reduced to index
    computations that are justified case by case in comments at the
    corresponding definitions.
-/

namespace GrammarChecker

/-- The brace characters, written via their code points. -/
def lbrace : Char := '\x7b'

def rbrace : Char := '\x7d'

/-- JSON whitespace: space, tab, line feed, carriage return. -/
def isJsonWs (c : Char) : Bool := c = ' ' || c = '\t' || c = '\n' || c = '\r'

def skipWs (cs : List Char) : List Char := cs.dropWhile isJsonWs

/-- JSON values.  Numbers keep their source lexeme: none of the script's
decisions depend on numeric magnitude, only on whether the number is zero
(JavaScript truthiness and `=== 0`), which is decidable from the lexeme. -/
inductive Json where
  | null : Json
  | bool (b : Bool) : Json
  | num (lexeme : String) : Json
  | str (s : String) : Json
  | arr (items : List Json) : Json
  | obj (fields : List (String × Json)) : Json
deriving Repr

/-- Hexadecimal digit value. -/
def hexVal (c : Char) : Option Nat :=
  if '0' ≤ c ∧ c ≤ '9' then some (c.toNat - '0'.toNat)
  else if 'a' ≤ c ∧ c ≤ 'f' then some (c.toNat - 'a'.toNat + 10)
  else if 'A' ≤ c ∧ c ≤ 'F' then some (c.toNat - 'A'.toNat + 10)
  else none

/-- Single-character escape map of JSON strings. -/
def escChar (c : Char) : Option Char :=
  if c = '"' then some '"'
  else if c = '\\' then some '\\'
  else if c = '/' then some '/'
  else if c = 'b' then some (Char.ofNat 8)
  else if c = 'f' then some (Char.ofNat 12)
  else if c = 'n' then some '\n'
  else if c = 'r' then some '\r'
  else if c = 't' then some '\t'
  else none

/-- Body of a JSON string after the opening quote (fueled; every step
consumes at least one character, so `length + 1` fuel always suffices):
returns the decoded characters and the remainder after the closing
quote.  Raw control characters below 0x20 are rejected, as `JSON.parse`
rejects them. -/
def parseStringBody : Nat → List Char → Option (List Char × List Char)
  | 0, _ => none
  | _ + 1, [] => none
  | fuel + 1, c :: cs =>
    if c = '"' then some ([], cs)
    else if c = '\\' then
      match cs with
      | [] => none
      | e :: cs2 =>
        if e = 'u' then
          match cs2 with
          | h1 :: h2 :: h3 :: h4 :: cs6 =>
            match hexVal h1, hexVal h2, hexVal h3, hexVal h4 with
            | some v1, some v2, some v3, some v4 =>
              (parseStringBody fuel cs6).map (fun p =>
                (Char.ofNat (((v1 * 16 + v2) * 16 + v3) * 16 + v4) :: p.1, p.2))
            | _, _, _, _ => none
          | _ => none
        else
          match escChar e with
          | some d => (parseStringBody fuel cs2).map (fun p => (d :: p.1, p.2))
          | none => none
    else if c.toNat < 32 then none
    else (parseStringBody fuel cs).map (fun p => (c :: p.1, p.2))

/-- A JSON string body starting at `cs`, with adequate fuel. -/
def parseStringAt (cs : List Char) : Option (List Char × List Char) :=
  parseStringBody (cs.length + 1) cs

/-- JSON number lexeme after an optional leading minus sign:
`int frac? exp?` with the strict JSON rules (no leading zeros, at least
one digit in each part). -/
def parseNumTail (cs : List Char) : Option (List Char × List Char) :=
  let intPart : Option (List Char × List Char) :=
    match cs with
    | [] => none
    | c :: rest =>
      if c = '0' then some ([c], rest)
      else if '1' ≤ c ∧ c ≤ '9' then
        some (c :: rest.takeWhile Char.isDigit, rest.dropWhile Char.isDigit)
      else none
  match intPart with
  | none => none
  | some (ip, rest1) =>
    let fracPart : Option (List Char × List Char) :=
      match rest1 with
      | '.' :: d :: rest2 =>
        if d.isDigit then
          some ('.' :: d :: rest2.takeWhile Char.isDigit, rest2.dropWhile Char.isDigit)
        else none
      | _ => some ([], rest1)
    match fracPart with
    | none => none
    | some (fp, rest2) =>
      let expPart : Option (List Char × List Char) :=
        match rest2 with
        | e :: rest3 =>
          if e = 'e' ∨ e = 'E' then
            let sgn : List Char × List Char :=
              match rest3 with
              | s :: r => if s = '+' ∨ s = '-' then ([s], r) else ([], rest3)
              | [] => ([], [])
            match sgn.2 with
            | d :: _ =>
              if d.isDigit then
                some (e :: (sgn.1 ++ sgn.2.takeWhile Char.isDigit),
                      sgn.2.dropWhile Char.isDigit)
              else none
            | [] => none
          else some ([], rest2)
        | [] => some ([], rest2)
      match expPart with
      | none => none
      | some (ep, rest3) => some (ip ++ fp ++ ep, rest3)

/-- A JSON number starting at the head of the input (with optional minus
sign); returns the lexeme and the remainder. -/
def parseNumber (cs : List Char) : Option (String × List Char) :=
  match cs with
  | '-' :: rest => (parseNumTail rest).map (fun p => (String.mk ('-' :: p.1), p.2))
  | _ => (parseNumTail cs).map (fun p => (String.mk p.1, p.2))

mutual

/-- One JSON value, fueled recursive descent.  Leading whitespace is
skipped; the remainder after the value is returned. -/
def parseVal : Nat → List Char → Option (Json × List Char)
  | 0, _ => none
  | fuel + 1, cs0 =>
    match skipWs cs0 with
    | [] => none
    | c :: rest =>
      if c = lbrace then
        match skipWs rest with
        | d :: rest1 =>
          if d = rbrace then some (Json.obj [], rest1)
          else parseMembers fuel (skipWs rest)
        | [] => none
      else if c = '[' then
        match skipWs rest with
        | d :: rest1 =>
          if d = ']' then some (Json.arr [], rest1)
          else parseItems fuel (skipWs rest)
        | [] => none
      else if c = '"' then
        (parseStringAt rest).map (fun p => (Json.str (String.mk p.1), p.2))
      else if c = 't' then
        if ['r', 'u', 'e'].isPrefixOf rest then some (Json.bool true, rest.drop 3) else none
      else if c = 'f' then
        if ['a', 'l', 's', 'e'].isPrefixOf rest then some (Json.bool false, rest.drop 4) else none
      else if c = 'n' then
        if ['u', 'l', 'l'].isPrefixOf rest then some (Json.null, rest.drop 3) else none
      else
        (parseNumber (c :: rest)).map (fun p => (Json.num p.1, p.2))

/-- Non-empty comma-separated array items, ending at `]`. -/
def parseItems : Nat → List Char → Option (Json × List Char)
  | 0, _ => none
  | fuel + 1, cs =>
    match parseVal fuel cs with
    | none => none
    | some (v, rest) =>
      match skipWs rest with
      | ',' :: rest1 =>
        match parseItems fuel rest1 with
        | some (Json.arr vs, rest2) => some (Json.arr (v :: vs), rest2)
        | _ => none
      | c :: rest1 =>
        if c = ']' then some (Json.arr [v], rest1) else none
      | [] => none

/-- Non-empty comma-separated object members, ending at the closing brace. -/
def parseMembers : Nat → List Char → Option (Json × List Char)
  | 0, _ => none
  | fuel + 1, cs =>
    match skipWs cs with
    | '"' :: rest =>
      match parseStringAt rest with
      | none => none
      | some (key, rest1) =>
        match skipWs rest1 with
        | ':' :: rest2 =>
          match parseVal fuel rest2 with
          | none => none
          | some (v, rest3) =>
            match skipWs rest3 with
            | ',' :: rest4 =>
              match parseMembers fuel rest4 with
              | some (Json.obj fs, rest5) => some (Json.obj ((String.mk key, v) :: fs), rest5)
              | _ => none
            | d :: rest4 =>
              if d = rbrace then some (Json.obj [(String.mk key, v)], rest4) else none
            | [] => none
        | _ => none
    | _ => none

end



/-- Model of `JSON.parse` on a character list: one value, with only whitespace
allowed after it. -/
def jsonParseChars (cs : List Char) : Option Json :=
  match parseVal (4 * cs.length + 16) cs with
  | some (j, rest) => if skipWs rest = [] then some j else none
  | none => none

/-- Model of `JSON.parse` on a string. -/
def jsonParse (s : String) : Option Json := jsonParseChars s.toList

/-- Whether a number lexeme denotes zero: every digit of the mantissa
(the part before any exponent marker) is `0`.  Covers `0`, `-0`, `0.00`,
`0e5`, ... -/
def numLexemeIsZero (lexeme : String) : Bool :=
  ((lexeme.toList.takeWhile (fun c => c ≠ 'e' ∧ c ≠ 'E')).filter Char.isDigit).all
    (fun c => c = '0')

/-- JavaScript falsiness of a JSON value: `null`, `false`, a zero number
and the empty string are falsy; arrays and objects are always truthy. -/
def Json.falsy : Json → Bool
  | Json.null => true
  | Json.bool b => !b
  | Json.num lexeme => numLexemeIsZero lexeme
  | Json.str s => s = ""
  | Json.arr _ => false
  | Json.obj _ => false

/-- Property lookup on a parsed object.  `JSON.parse` keeps the last of
several members with the same key, hence the reverse search. -/
def objLookup (fields : List (String × Json)) (key : String) : Option Json :=
  (fields.reverse.find? (fun p => p.1 == key)).map (fun p => p.2)

/-- The test `v.length === 0` of the script for an arbitrary value `v`:
true for an empty array or empty string, or for an object whose `length`
member is the number zero; otherwise false (in particular `undefined === 0`
is false). -/
def lengthStrictEqZero : Json → Bool
  | Json.arr items => items.isEmpty
  | Json.str s => s = ""
  | Json.obj fields =>
    match objLookup fields ("length") with
    | some (Json.num lexeme) => numLexemeIsZero lexeme
    | _ => false
  | _ => false

/-! ### The reply-extraction of `findTypos` (lines 144-158 of the script)

`findTypos` runs

  response.match(/```json\s*([\s\S]*?)\s*```/) || response.match(/{[\s\S]*}/)

and parses `jsonMatch[0].replace(/```json|```/g, '').trim()` when one of
the two matched, else `JSON.parse(response)` on the whole reply.

The two regular expressions are reduced to index computations:

  * Fence pattern: the overall match starts at an occurrence of the
    literal "```json"; the lazy middle together with the two `\s*` ends
    the match at the earliest occurrence of "```" at least 7 characters
    further right (any intervening text splits as ws* ++ text ++ ws*, so
    the earliest closing position is always viable).  If the first
    occurrence of "```json" has no "```" at ≥ 7 characters to its right,
    no later occurrence has one either (later windows are subsets), so
    there is no match at all.  Hence: match iff the first "```json"
    occurrence has a "```" occurrence at offset ≥ 7 after it, and the
    match is the segment from the former to the end of the earliest such
    closing fence.
  * Brace pattern `{[\s\S]*}`: the leftmost viable start is the first
    `{` and the greedy middle ends at the last `}` of the whole string;
    a match exists iff the first `{` lies strictly before the last `}`
    (if the first `{` has no `}` after it, no later `{` has either).
-/

/-- Index (from `offset`) of the first occurrence of `pat` in `s`, by
direct scanning. -/
def firstOccAux (pat : List Char) : List Char → Nat → Option Nat
  | [], i => if pat.isEmpty then some i else none
  | c :: cs, i =>
    if pat.isPrefixOf (c :: cs) then some i else firstOccAux pat cs (i + 1)

def firstOcc (pat s : List Char) : Option Nat := firstOccAux pat s 0

/-- First occurrence of `pat` at an index ≥ `start`. -/
def firstOccFrom (pat s : List Char) (start : Nat) : Option Nat :=
  (firstOcc pat (s.drop start)).map (fun k => k + start)

/-- The fence characters of the two fence literals. -/
def fenceOpen : List Char := ['`', '`', '`', 'j', 's', 'o', 'n']

def fenceClose : List Char := ['`', '`', '`']

/-- The value `match[0]` of `response.match(/```json\s*([\s\S]*?)\s*```/)`
(see the reduction argument above). -/
def matchFenced (s : List Char) : Option (List Char) :=
  match firstOcc fenceOpen s with
  | none => none
  | some i =>
    match firstOccFrom fenceClose s (i + 7) with
    | none => none
    | some j => some ((s.drop i).take (j + 3 - i))

/-- The value `match[0]` of `response.match(/{[\s\S]*}/)`: the segment from the
first `{` through the last `}`, when the former precedes the latter
(see the reduction argument above). -/
def matchBraces (s : List Char) : Option (List Char) :=
  match firstOcc [lbrace] s, (firstOcc [rbrace] s.reverse).map (fun k => s.length - 1 - k) with
  | some i, some j => if i < j then some ((s.drop i).take (j + 1 - i)) else none
  | _, _ => none

/-- The call `.replace(/```json|```/g, '')`: removes every occurrence of
"```json", else "```", scanning left to right (the alternation prefers
the longer literal at a shared start). -/
def stripFencesFuel : Nat → List Char → List Char
  | 0, _ => []
  | _ + 1, [] => []
  | fuel + 1, c :: cs =>
    if fenceOpen.isPrefixOf (c :: cs) then stripFencesFuel fuel (cs.drop 6)
    else if fenceClose.isPrefixOf (c :: cs) then stripFencesFuel fuel (cs.drop 2)
    else c :: stripFencesFuel fuel cs

def stripFences (s : List Char) : List Char := stripFencesFuel (s.length + 1) s

/-- JavaScript whitespace trimmed by `String.prototype.trim` (the ASCII
fragment). -/
def isJsTrimWs (c : Char) : Bool :=
  c = ' ' || c = '\t' || c = '\n' || c = '\r' || c = '\x0b' || c = '\x0c'

def jsTrim (s : List Char) : List Char :=
  ((s.dropWhile isJsTrimWs).reverse.dropWhile isJsTrimWs).reverse

/-- The text handed to `JSON.parse` by `findTypos`: the first of the two
regular expressions that matches, fences stripped and trimmed; the whole
reply when neither matches. -/
def extractCandidate (s : List Char) : List Char :=
  match (matchFenced s).orElse (fun _ => matchBraces s) with
  | some m => jsTrim (stripFences m)
  | none => s

/-- Outcome of the reply interpretation of `findTypos`. -/
inductive TypoResult where
  | parseError : TypoResult
  | noFindings : TypoResult
  | found (typos : Json) : TypoResult
deriving Repr

/-- Lines 160-166 of the script: `!result || !result.typos ||
result.typos.length === 0` signals "no typos found"; otherwise the
`typos` value is handed to the suggestion dialog. -/
def typosResultOf (result : Json) : TypoResult :=
  if result.falsy then TypoResult.noFindings
  else
    match result with
    | Json.obj fields =>
      match objLookup fields ("typos") with
      | none => TypoResult.noFindings
      | some v =>
        if v.falsy then TypoResult.noFindings
        else if lengthStrictEqZero v then TypoResult.noFindings
        else TypoResult.found v
    | _ => TypoResult.noFindings

/-- The reply interpreter of `findTypos`: extract a candidate, parse it,
classify.  A parse failure of the selected candidate is the thrown
"Failed to parse OpenAI response" error. -/
def findTyposInterp (response : String) : TypoResult :=
  match jsonParseChars (extractCandidate response.toList) with
  | none => TypoResult.parseError
  | some result => typosResultOf result

/-! ### The extraction procedure as the specification describes it

The definitions of this block follow the wording of the specification
("(1) a fenced code block tagged as JSON, (2) the first top-level
`\x7b...\x7d` object found by brace matching, (3) the whole reply", with the
parsed typo list equal to the result of parsing the first stage that
yields a valid JSON object).  They are compared against the embedded code
above. -/

/-- Stage 1 of the specification: the content of the fenced JSON block,
trimmed. -/
def specFencedContent (s : List Char) : Option (List Char) :=
  match firstOcc fenceOpen s with
  | none => none
  | some i =>
    match firstOccFrom fenceClose s (i + 7) with
    | none => none
    | some j => some (jsTrim ((s.drop (i + 7)).take (j - (i + 7))))

/-- Brace matching: length of the prefix that closes the object opened by
a leading brace (depth returns to zero). -/
def braceScan : List Char → Nat → Nat → Option Nat
  | [], _, _ => none
  | c :: cs, depth, n =>
    if c = lbrace then braceScan cs (depth + 1) (n + 1)
    else if c = rbrace then
      if depth = 1 then some (n + 1) else braceScan cs (depth - 1) (n + 1)
    else braceScan cs depth (n + 1)

/-- Stage 2 of the specification: the first top-level brace-matched
object. -/
def specBraceMatched (s : List Char) : Option (List Char) :=
  match firstOcc [lbrace] s with
  | none => none
  | some i => (braceScan (s.drop i) 0 0).map (fun len => (s.drop i).take len)

/-- Keep a parse result only when it is a JSON object. -/
def asObj : Option Json → Option Json
  | some (Json.obj fields) => some (Json.obj fields)
  | _ => none

/-- The first candidate (in stage order) that parses to a valid JSON
object. -/
def firstObjOf : List (Option (List Char)) → Option Json
  | [] => none
  | none :: rest => firstObjOf rest
  | some cand :: rest =>
    match asObj (jsonParseChars cand) with
    | some j => some j
    | none => firstObjOf rest

/-- The interpreter as the specification claims it behaves: take the
first stage yielding a valid JSON object, and classify its typo list;
a parse error only when no stage yields one. -/
def claimStagedInterp (s : String) : TypoResult :=
  match firstObjOf [specFencedContent s.toList, specBraceMatched s.toList, some s.toList] with
  | none => TypoResult.parseError
  | some j => typosResultOf j

/-! ### The amended description of the extraction

The code commits to the first *pattern* that matches — the fenced block,
else the greedy span from the first `\x7b` to the last `\x7d` — and parses
only that selection; a parse failure is an error with no fallback to a
later stage.  The definitions below restate the selection declaratively
(searches expressed through `List.range`/`List.find?` rather than the
scanners above) and are proved equal to the embedded code. -/

/-- Declarative first-occurrence index: the least `i` with `pat` a prefix
of `s.drop i`. -/
def idxOfSub (pat s : List Char) : Option Nat :=
  (List.range (s.length + 1)).find? (fun i => pat.isPrefixOf (s.drop i))

/-- Amended stage 1: the fenced-block match, declaratively. -/
def amendedFenced (s : List Char) : Option (List Char) :=
  match idxOfSub fenceOpen s with
  | none => none
  | some i =>
    match (idxOfSub fenceClose (s.drop (i + 7))).map (fun k => k + (i + 7)) with
    | none => none
    | some j => some ((s.drop i).take (j + 3 - i))

/-- Amended stage 2: the span from the first opening brace through the
last closing brace, when the former lies strictly before the latter. -/
def amendedBraces (s : List Char) : Option (List Char) :=
  match idxOfSub [lbrace] s, (idxOfSub [rbrace] s.reverse).map (fun k => s.length - 1 - k) with
  | some i, some j => if i < j then some ((s.drop i).take (j + 1 - i)) else none
  | _, _ => none

/-- Amended candidate selection: commit to the first matching pattern. -/
def amendedCandidate (s : List Char) : List Char :=
  match amendedFenced s with
  | some m => jsTrim (stripFences m)
  | none =>
    match amendedBraces s with
    | some m => jsTrim (stripFences m)
    | none => s

/-- The amended interpreter: parse exactly the committed candidate. -/
def amendedInterp (s : String) : TypoResult :=
  match jsonParseChars (amendedCandidate s.toList) with
  | none => TypoResult.parseError
  | some j => typosResultOf j

/-! ### Replacement application (`replaceTypo`, lines 225-229 of the script)

The dialog script applies an accepted replacement by

  correctedText.replace(new RegExp(original, 'g'), replacement)

The typo word is compiled as a *regular expression*, not escaped.  The
embedding models the JavaScript regex for the fragment of patterns whose
characters are either the any-character metacharacter `.` (which matches
every character except a line terminator) or plain non-metacharacters;
patterns using other metacharacters, and dollar substitution patterns in
the replacement string, are outside the modelled fragment.  A global
regex replace scans left to right and replaces non-overlapping matches;
a zero-length match emits the replacement and advances one character,
with a final zero-length match at the end of the string. -/

/-- The JavaScript regex metacharacters (the modelled fragment requires
the pattern to avoid all but `.`, and the literal-word comparison below
requires avoiding `.` as well). -/
def regexSpecials : List Char := ['.', '*', '+', '?', '^', '$', '(', ')', '[', ']', lbrace, rbrace, '|', '\\']

/-- One compiled pattern token: a literal character or the dot. -/
inductive RTok where
  | lit (c : Char)
  | dot
deriving Repr

/-- Compilation `new RegExp(original)` over the modelled fragment. -/
def toksOfChars (w : List Char) : List RTok :=
  w.map (fun c => if c = '.' then RTok.dot else RTok.lit c)

/-- JavaScript line terminators, which `.` does not match. -/
def isLineTerminator (c : Char) : Bool :=
  c = '\n' || c = '\r' || c = Char.ofNat 8232 || c = Char.ofNat 8233

def tokMatches : RTok → Char → Bool
  | RTok.lit a, c => a == c
  | RTok.dot, c => !(isLineTerminator c)

/-- Whether the token list matches a prefix of `l` (each token consumes
exactly one character; the fragment has no quantifiers). -/
def matchesPrefix : List RTok → List Char → Bool
  | [], _ => true
  | _ :: _, [] => false
  | t :: ts, c :: cs => tokMatches t c && matchesPrefix ts cs

/-- Global regex replacement, fueled (every step consumes at least one
character, so `length + 1` fuel suffices). -/
def jsReplaceAllFuel : Nat → List RTok → List Char → List Char → List Char
  | 0, _, _, _ => []
  | _ + 1, toks, rep, [] => if matchesPrefix toks [] then rep else []
  | fuel + 1, toks, rep, c :: cs =>
    if matchesPrefix toks (c :: cs) then
      match toks with
      | [] => rep ++ c :: jsReplaceAllFuel fuel [] rep cs
      | _ :: ts => rep ++ jsReplaceAllFuel fuel toks rep (cs.drop ts.length)
    else c :: jsReplaceAllFuel fuel toks rep cs

def jsReplaceAll (toks : List RTok) (rep text : List Char) : List Char :=
  jsReplaceAllFuel (text.length + 1) toks rep text

/-- Line 226 of the script:
`correctedText.replace(new RegExp(original, 'g'), replacement)`. -/
def replaceTypo (correctedText original replacement : String) : String :=
  (jsReplaceAll (toksOfChars original.toList) replacement.toList correctedText.toList).asString

/-- The replacement application as the specification describes it: a
global textual substitution of the *literal* typo word, every occurrence,
scanning left to right. -/
def literalReplaceFuel : Nat → List Char → List Char → List Char → List Char
  | 0, _, _, _ => []
  | _ + 1, w, rep, [] => if w.isEmpty then rep else []
  | fuel + 1, w, rep, c :: cs =>
    if w.isPrefixOf (c :: cs) then
      match w with
      | [] => rep ++ c :: literalReplaceFuel fuel [] rep cs
      | _ :: ws => rep ++ literalReplaceFuel fuel w rep (cs.drop ws.length)
    else c :: literalReplaceFuel fuel w rep cs

def globalLiteralReplace (text w rep : String) : String :=
  (literalReplaceFuel (text.toList.length + 1) w.toList rep.toList text.toList).asString

/-! ### Word similarity and the suggestion dialog (lines 177-269) -/

/-- Model of `toLowerCase`, over the ASCII fragment modelled by `Char.toLower`
(applied characterwise, as `String.map` does). -/
def jsToLower (s : String) : String := String.mk (s.toList.map Char.toLower)

/-- Lines 263-269 of the script (`similarWords`): lower-case both words;
similar when the first characters agree (both `undefined` for empty
words, which also agree) and the lengths differ by at most 2. -/
def similarWords (word1 word2 : String) : Bool :=
  let w1 := jsToLower word1
  let w2 := jsToLower word2
  decide (w1.toList.head? = w2.toList.head?) &&
    decide ((((w1.length : Int)) - ((w2.length : Int))).natAbs ≤ 2)

/-- A typo entry as consumed by the suggestion dialog. -/
structure TypoSuggestion where
  word : String
  replacements : List String
deriving Repr, DecidableEq

/-- Lines 190-196 of the script: start from the model's replacements and
push every similar dictionary word that is not already present. -/
def allReplacements (typo : TypoSuggestion) (customDict : List String) : List String :=
  customDict.foldl
    (fun acc dictWord =>
      if similarWords typo.word dictWord && !(acc.contains dictWord) then acc ++ [dictWord]
      else acc)
    typo.replacements

/-- Lines 189-213 of the script: the dialog renders one entry per typo —
`typos.map` — each with its word and its computed replacement list;
nothing is skipped or flagged. -/
def renderedTypos (typos : List TypoSuggestion) (customDict : List String) :
    List (String × List String) :=
  typos.map (fun typo => (typo.word, allReplacements typo customDict))

/-! ### The custom dictionary (lines 565-595 of the script)

The dictionary is persisted as a JSON-encoded list under a user
property; `getCustomDictionary` decodes it.  Since the encoding
round-trips, the store is modelled as holding the list itself, and the
two mutating operations are modelled as functions from the stored list
(and argument) to the list that is both persisted and returned — in the
script the returned array is the persisted one. -/

/-- Model of `word.trim()` (the ASCII fragment of the JavaScript whitespace
set). -/
def trimStr (s : String) : String := String.mk (jsTrim s.toList)

/-- Lines 573-583 (`addToCustomDictionary`): the script first reassigns
`word = word.trim()`; a blank result or one already present (strict
equality) is a no-op; otherwise the trimmed word is pushed at the end
and persisted. -/
def addToCustomDictionary (dict : List String) (word : String) : List String :=
  if trimStr word = ("") then dict
  else if dict.contains (trimStr word) then dict
  else dict ++ [trimStr word]

/-- Lines 588-595 (`removeFromCustomDictionary`): `splice(index, 1)` when
`index >= 0 && index < dict.length`, otherwise a no-op. -/
def removeFromCustomDictionary (dict : List String) (index : Int) : List String :=
  if 0 ≤ index ∧ index < (dict.length : Int) then dict.eraseIdx index.toNat
  else dict

/-! ### The HTTP client and the typo-fix action boundary (lines 113-172
and 437-468 of the script) -/

structure HttpResponse where
  code : Nat
  body : String

inductive CallError where
  | apiError (status : Nat) (body : String)
  | hostException

/-- The `message` of the thrown error: the client's own API error builds
`API Error <status>: <body>`; a JSON-parse failure or TypeError carries
engine-defined text, modelled opaquely. -/
def CallError.message : CallError → Option String
  | CallError.apiError status body => some (("API Error ") ++ toString status ++ (": ") ++ body)
  | CallError.hostException => none

/-- Property access `v[k]` for a string key on a parsed JSON value:
among JSON values only objects have such own properties (the later of
duplicate keys wins); on the rest the access yields `undefined`. -/
def jsGetProp : Json → String → Option Json
  | Json.obj fields, key => objLookup fields key
  | _, _ => none

/-- Index access `v[0]`: arrays yield their first element, strings their
first character as a one-character string, objects a `"0"` member. -/
def jsIndexZero : Json → Option Json
  | Json.arr items => items.head?
  | Json.str s => (s.toList.head?).map (fun c => Json.str (String.mk [c]))
  | Json.obj fields => objLookup fields ("0")
  | _ => none

/-- One step of a property chain; accessing a member of `undefined` or
`null` throws a TypeError. -/
def chainProp (v : Option Json) (key : String) : Except Unit (Option Json) :=
  match v with
  | none => Except.error ()
  | some Json.null => Except.error ()
  | some j => Except.ok (jsGetProp j key)

def chainIndexZero (v : Option Json) : Except Unit (Option Json) :=
  match v with
  | none => Except.error ()
  | some Json.null => Except.error ()
  | some j => Except.ok (jsIndexZero j)

/-- Line 467 of the script: `parsedResponse.choices[0].message.content`. -/
def contentChain (parsed : Json) : Except Unit (Option Json) := do
  let c1 ← chainProp (some parsed) ("choices")
  let c2 ← chainIndexZero c1
  let c3 ← chainProp c2 ("message")
  chainProp c3 ("content")

/-- Lines 437-468 (`callOpenAI`) with the HTTP response injected: a
non-200 status throws `API Error <status>: <body>`; on 200 the body is
parsed as JSON and the first completion's message content is returned (a
JSON-parse failure or a TypeError in the property chain is a host
exception). -/
def callOpenAI (resp : HttpResponse) : Except CallError (Option Json) :=
  if resp.code ≠ 200 then Except.error (CallError.apiError resp.code resp.body)
  else
    match jsonParse resp.body with
    | none => Except.error CallError.hostException
    | some parsed =>
      match contentChain parsed with
      | Except.error _ => Except.error CallError.hostException
      | Except.ok content => Except.ok content

/-- A user-visible alert message: literal text of the script, or
engine-defined exception text (prefixed `Error: ` by the catch). -/
inductive AlertMsg where
  | text (s : String)
  | hostText
deriving Repr

/-- The externally visible effects of the action handlers. -/
inductive Effect where
  | alert (msg : AlertMsg)
  | openApiKeyDialog
  | showTypoDialog (typos : Json)
  | cachePut (key value : String)
  | setValue (sheetId : Int) (rangeA1 : String) (value : String)
deriving Repr

/-- The pending target of the opened dialog. -/
structure RangeInfo where
  a1 : String
  sheetId : Int

/-- JavaScript falsiness of a nullable string (`null` and the empty
string are falsy). -/
def jsStrFalsy : Option String → Bool
  | none => true
  | some s => s == ("")

/-- The values a spread `[...v]` accepts among JSON values: arrays and
strings are iterable. -/
def spreadIterable : Json → Bool
  | Json.arr _ => true
  | Json.str _ => true
  | _ => false

/-- Whether building the suggestion dialog for the entry `e` avoids a
host TypeError: `[...typo.replacements]` needs the member to exist and
be iterable (property access on `null` already throws), and with a
non-empty dictionary `similarWords(typo.word, dictWord)` calls
`toLowerCase()` on the word, which must then be a string. -/
def entryBuildOk (customDict : List String) (e : Json) : Bool :=
  (match e with
   | Json.null => false
   | _ =>
     match jsGetProp e ("replacements") with
     | some v => spreadIterable v
     | none => false) &&
  (customDict.isEmpty ||
   (match jsGetProp e ("word") with
    | some (Json.str _) => true
    | _ => false))

def dialogBuildOk (typos : Json) (customDict : List String) : Bool :=
  match typos with
  | Json.arr entries => entries.all (entryBuildOk customDict)
  | _ => false

/-- The typo-fix action boundary (`findTypos`, lines 113-172) with the
HTTP response injected: the visible effects, in order.  The selected
text only feeds the prompt and does not influence the effects once the
response is fixed.  Every exception of the `try` block is caught at line
168 and surfaced as a single alert. -/
def findTyposFlow (apiKey : Option String) (resp : HttpResponse) (range : RangeInfo)
    (customDict : List String) : List Effect :=
  if jsStrFalsy apiKey then
    [Effect.alert (AlertMsg.text ("Please set your OpenAI API key first.")),
     Effect.openApiKeyDialog]
  else
    match callOpenAI resp with
    | Except.error e =>
      match e.message with
      | some m => [Effect.alert (AlertMsg.text (("Error: ") ++ m))]
      | none => [Effect.alert AlertMsg.hostText]
    | Except.ok content =>
      if (match content with
          | none => true
          | some j => j.falsy) then
        [Effect.alert (AlertMsg.text ("Error: Failed to get response from OpenAI"))]
      else
        match content with
        | some (Json.str reply) =>
          match findTyposInterp reply with
          | TypoResult.parseError =>
            [Effect.alert (AlertMsg.text ("Error: Failed to parse OpenAI response"))]
          | TypoResult.noFindings =>
            [Effect.alert (AlertMsg.text ("No typos found in the selected text."))]
          | TypoResult.found typos =>
            if dialogBuildOk typos customDict then
              [Effect.showTypoDialog typos,
               Effect.cachePut ("ACTIVE_RANGE_A1") range.a1,
               Effect.cachePut ("ACTIVE_SHEET_ID") (toString range.sheetId)]
            else [Effect.alert AlertMsg.hostText]
        | _ => [Effect.alert AlertMsg.hostText]

/-! ### The cell write-back (lines 274-298 and 421-432 of the script) -/

structure Sheet where
  sheetId : Int

/-- The two cache entries read by the write-back functions. -/
structure CacheState where
  activeRangeA1 : Option String
  activeSheetId : Option String

/-- Lines 290-298 (`getSheetById`): linear search for the first sheet
whose numeric id prints as the cached string. -/
def getSheetById (sheets : List Sheet) (id : String) : Option Sheet :=
  sheets.find? (fun sheet => toString sheet.sheetId == id)

/-- Lines 274-285 (`updateCellWithCorrectedText`): read the two cache
entries; return silently when either is missing or empty (falsy);
otherwise resolve the sheet by id and overwrite the range value, again a
silent no-op when the sheet does not resolve. -/
def updateCellWithCorrectedText (cache : CacheState) (sheets : List Sheet)
    (correctedText : String) : List Effect :=
  if jsStrFalsy cache.activeRangeA1 || jsStrFalsy cache.activeSheetId then []
  else
    match getSheetById sheets ((cache.activeSheetId).getD ("")) with
    | some sheet =>
      [Effect.setValue sheet.sheetId ((cache.activeRangeA1).getD ("")) correctedText]
    | none => []

/-- Lines 421-432 (`updateCellWithImprovedGrammar`): textually the same
procedure as `updateCellWithCorrectedText` up to the parameter name. -/
def updateCellWithImprovedGrammar (cache : CacheState) (sheets : List Sheet)
    (improvedText : String) : List Effect :=
  if jsStrFalsy cache.activeRangeA1 || jsStrFalsy cache.activeSheetId then []
  else
    match getSheetById sheets ((cache.activeSheetId).getD ("")) with
    | some sheet =>
      [Effect.setValue sheet.sheetId ((cache.activeRangeA1).getD ("")) improvedText]
    | none => []

/-! ## Theorems

The lemmas and claim theorems about the definitions above. -/

lemma firstOccAux_shift (pat : List Char) (s : List Char) (i : Nat) :
    firstOccAux pat s i = (firstOccAux pat s 0).map (fun k => k + i) := by
  induction s generalizing i with
  | nil =>
    by_cases h : pat.isEmpty <;> simp [firstOccAux, h]
  | cons c cs ih =>
    by_cases h : pat.isPrefixOf (c :: cs)
    · simp [firstOccAux, h]
    · rw [firstOccAux, firstOccAux, if_neg h, if_neg h, ih, ih 1, Option.map_map]
      have hf : ((fun k => k + i) ∘ fun k => k + 1) = fun k => k + (i + 1) := by
        funext k
        simp [Function.comp]
        omega
      rw [hf]

lemma firstOcc_eq_idxOfSub (pat s : List Char) : firstOcc pat s = idxOfSub pat s := by
  induction s with
  | nil => cases pat <;> rfl
  | cons c cs ih =>
    show firstOccAux pat (c :: cs) 0 = idxOfSub pat (c :: cs)
    rw [firstOccAux, idxOfSub, List.length_cons, List.range_succ_eq_map, List.find?_cons]
    by_cases h : pat.isPrefixOf (c :: cs)
    · simp [h]
    · have h0 : pat.isPrefixOf ((c :: cs).drop 0) = false := by
        rw [List.drop_zero]
        exact (Bool.not_eq_true _).mp h
      have hdrop : (fun i => pat.isPrefixOf ((c :: cs).drop i)) ∘ Nat.succ
          = fun i => pat.isPrefixOf (cs.drop i) := by
        funext i
        rfl
      rw [if_neg h]
      simp only [h0, List.find?_map, hdrop]
      have hidx : (List.range (cs.length + 1)).find? (fun i => pat.isPrefixOf (cs.drop i))
          = idxOfSub pat cs := rfl
      rw [hidx, ← ih, firstOccAux_shift]
      rfl

lemma matchFenced_eq_amended (s : List Char) : matchFenced s = amendedFenced s := by
  rw [matchFenced, amendedFenced, firstOcc_eq_idxOfSub]
  cases idxOfSub fenceOpen s with
  | none => rfl
  | some i =>
    simp only [firstOccFrom, firstOcc_eq_idxOfSub]

lemma matchBraces_eq_amended (s : List Char) : matchBraces s = amendedBraces s := by
  rw [matchBraces, amendedBraces, firstOcc_eq_idxOfSub, firstOcc_eq_idxOfSub]

lemma extractCandidate_eq_amended (s : List Char) :
    extractCandidate s = amendedCandidate s := by
  rw [extractCandidate, amendedCandidate, matchFenced_eq_amended, matchBraces_eq_amended]
  cases amendedFenced s with
  | none =>
    cases amendedBraces s with
    | none => rfl
    | some m => rfl
  | some m => rfl

/-- Claim C1 counterexample: on the reply `a \x7b"x":1\x7d b \x7b"y":2\x7d c`
the staged extraction described by the specification finds the first
top-level brace-matched object `\x7b"x":1\x7d`, which parses (yielding zero
typos), while the code takes the greedy span from the first `\x7b` to the
last `\x7d` — `\x7b"x":1\x7d b \x7b"y":2\x7d` — whose parse fails, so the code
reports a parse error.  The parsed typo list of the code is therefore not
the result of parsing the first stage yielding a valid JSON object. -/
theorem c1_counterexample :
    findTyposInterp ("a \x7b\"x\":1\x7d b \x7b\"y\":2\x7d c") = TypoResult.parseError ∧
    claimStagedInterp ("a \x7b\"x\":1\x7d b \x7b\"y\":2\x7d c") = TypoResult.noFindings ∧
    findTyposInterp ("a \x7b\"x\":1\x7d b \x7b\"y\":2\x7d c")
      ≠ claimStagedInterp ("a \x7b\"x\":1\x7d b \x7b\"y\":2\x7d c") := by
  have h1 : findTyposInterp ("a \x7b\"x\":1\x7d b \x7b\"y\":2\x7d c")
      = TypoResult.parseError := by rfl
  have h2 : claimStagedInterp ("a \x7b\"x\":1\x7d b \x7b\"y\":2\x7d c")
      = TypoResult.noFindings := by rfl
  refine ⟨h1, h2, ?_⟩
  rw [h1, h2]
  intro hcontra
  exact TypoResult.noConfusion hcontra

/-- Claim C1 (amended): the interpreter commits to the first *pattern*
that matches — (1) a fenced ```json block when one with a closing fence
exists, (2) otherwise the greedy span from the first opening brace to the
last closing brace when the former precedes the latter, (3) otherwise the
whole reply — and the parsed typo list is the result of parsing exactly
that committed candidate (fences stripped and trimmed for stages 1 and
2); a parse failure of the committed candidate is an error, with no
fallback to a later stage. -/
theorem c1_committed_extraction (response : String) :
    findTyposInterp response = amendedInterp response := by
  rw [findTyposInterp, amendedInterp, extractCandidate_eq_amended]

lemma matchesPrefix_eq_isPrefixOf (w : List Char) (hw : ∀ c ∈ w, ¬ c ∈ regexSpecials) :
    ∀ l : List Char, matchesPrefix (toksOfChars w) l = w.isPrefixOf l := by
  induction w with
  | nil =>
    intro l
    cases l <;> rfl
  | cons a as ih =>
    intro l
    have ha : a ≠ '.' := by
      intro hdot
      exact hw a (List.mem_cons_self a as) (by rw [hdot]; decide)
    have has : ∀ c ∈ as, ¬ c ∈ regexSpecials := fun c hc => hw c (List.mem_cons_of_mem a hc)
    cases l with
    | nil => rfl
    | cons c cs =>
      have hstep : matchesPrefix (toksOfChars (a :: as)) (c :: cs)
          = (tokMatches (if a = '.' then RTok.dot else RTok.lit a) c
              && matchesPrefix (toksOfChars as) cs) := rfl
      rw [hstep, if_neg ha, ih has cs]
      rfl

lemma jsReplace_eq_literal (w rep : List Char) (hw : ∀ c ∈ w, ¬ c ∈ regexSpecials) :
    ∀ fuel text, jsReplaceAllFuel fuel (toksOfChars w) rep text
      = literalReplaceFuel fuel w rep text := by
  intro fuel
  induction fuel with
  | zero =>
    intro text
    rfl
  | succ fuel ih =>
    intro text
    cases text with
    | nil =>
      show (if matchesPrefix (toksOfChars w) [] then rep else [])
          = (if w.isEmpty then rep else [])
      rw [matchesPrefix_eq_isPrefixOf w hw []]
      cases w <;> rfl
    | cons c cs =>
      simp only [jsReplaceAllFuel, literalReplaceFuel]
      rw [matchesPrefix_eq_isPrefixOf w hw (c :: cs)]
      by_cases hpre : w.isPrefixOf (c :: cs)
      · rw [if_pos hpre, if_pos hpre]
        cases w with
        | nil =>
          have hnil := ih cs
          simp only [toksOfChars, List.map_nil] at hnil ⊢
          rw [hnil]
        | cons a as =>
          have hrec := ih (cs.drop as.length)
          simp only [toksOfChars, List.map_cons, List.length_map] at hrec ⊢
          rw [hrec]
      · rw [if_neg hpre, if_neg hpre, ih cs]

/-- Claim C2 counterexample: the typo word is compiled as a regular
expression, not treated as a literal string.  For working text `abc a.c`
and accepted replacement `a.c -> x`, the code rewrites the text to `x x`
(the pattern `a.c` also matches `abc`), while the global *literal*
substitution claimed by the specification yields `abc x`. -/
theorem c2_counterexample :
    replaceTypo ("abc a.c") ("a.c") ("x") = ("x x") ∧
    globalLiteralReplace ("abc a.c") ("a.c") ("x") = ("abc x") ∧
    replaceTypo ("abc a.c") ("a.c") ("x") ≠ globalLiteralReplace ("abc a.c") ("a.c") ("x") := by
  refine ⟨by rfl, by rfl, ?_⟩
  intro hcontra
  have h1 : replaceTypo ("abc a.c") ("a.c") ("x") = ("x x") := by rfl
  have h2 : globalLiteralReplace ("abc a.c") ("a.c") ("x") = ("abc x") := by rfl
  rw [h1, h2] at hcontra
  exact absurd hcontra (by decide)

/-- Claim C2 (amended): for typo words none of whose characters is a
regex metacharacter, and replacement strings without a dollar character,
accepting the replacement substitutes it for every literal occurrence of
the typo word in the working copy — a global textual substitution, not
just the first occurrence; in particular `teh -> the` on
`I teh went to the the store` yields `I the went to the the store`. -/
theorem c2_literal_for_plain_words (text w r : String)
    (hw : ∀ c ∈ w.toList, ¬ c ∈ regexSpecials)
    (_hr : ¬ '$' ∈ r.toList) :
    replaceTypo text w r = globalLiteralReplace text w r := by
  rw [replaceTypo, globalLiteralReplace, jsReplaceAll,
      jsReplace_eq_literal w.toList r.toList hw]

/-- Claim C2 witness: the amended theorem applied to the global-replace
scenario of the specification. -/
theorem c2_witness :
    replaceTypo ("I teh went to the the store") ("teh") ("the")
      = globalLiteralReplace ("I teh went to the the store") ("teh") ("the") ∧
    replaceTypo ("I teh went to the the store") ("teh") ("the")
      = ("I the went to the the store") :=
  ⟨c2_literal_for_plain_words ("I teh went to the the store") ("teh") ("the")
      (by decide) (by decide),
   by rfl⟩

lemma mem_foldl_push (word : String) (dict : List String) :
    ∀ (acc : List String) (r : String),
      r ∈ dict.foldl
          (fun acc dictWord =>
            if similarWords word dictWord && !(acc.contains dictWord) then acc ++ [dictWord]
            else acc)
          acc
        ↔ (r ∈ acc ∨ (r ∈ dict ∧ similarWords word r = true)) := by
  induction dict with
  | nil =>
    intro acc r
    simp
  | cons d ds ih =>
    intro acc r
    rw [List.foldl_cons]
    by_cases hsim : similarWords word d = true
    · by_cases hin : acc.contains d = true
      · have hstep : (if similarWords word d && !(acc.contains d) then acc ++ [d] else acc)
            = acc := by
          rw [hsim, hin]
          rfl
        rw [hstep, ih]
        constructor
        · rintro (hr | ⟨hr, hs⟩)
          · exact Or.inl hr
          · exact Or.inr ⟨List.mem_cons_of_mem d hr, hs⟩
        · rintro (hr | ⟨hr, hs⟩)
          · exact Or.inl hr
          · rcases List.mem_cons.mp hr with rfl | hr2
            · exact Or.inl (List.elem_iff.mp hin)
            · exact Or.inr ⟨hr2, hs⟩
      · have hinb : acc.contains d = false := by
          cases hcc : acc.contains d
          · rfl
          · exact absurd hcc hin
        have hstep : (if similarWords word d && !(acc.contains d) then acc ++ [d] else acc)
            = acc ++ [d] := by
          rw [hsim, hinb]
          rfl
        rw [hstep, ih]
        rw [List.mem_append, List.mem_singleton]
        constructor
        · rintro ((hr | rfl) | ⟨hr, hs⟩)
          · exact Or.inl hr
          · exact Or.inr ⟨List.mem_cons_self _ _, hsim⟩
          · exact Or.inr ⟨List.mem_cons_of_mem d hr, hs⟩
        · rintro (hr | ⟨hr, hs⟩)
          · exact Or.inl (Or.inl hr)
          · rcases List.mem_cons.mp hr with rfl | hr2
            · exact Or.inl (Or.inr rfl)
            · exact Or.inr ⟨hr2, hs⟩
    · have hsimb : similarWords word d = false := by
        cases hss : similarWords word d
        · rfl
        · exact absurd hss hsim
      have hstep : (if similarWords word d && !(acc.contains d) then acc ++ [d] else acc)
          = acc := by
        rw [hsimb]
        rfl
      rw [hstep, ih]
      constructor
      · rintro (hr | ⟨hr, hs⟩)
        · exact Or.inl hr
        · exact Or.inr ⟨List.mem_cons_of_mem d hr, hs⟩
      · rintro (hr | ⟨hr, hs⟩)
        · exact Or.inl hr
        · rcases List.mem_cons.mp hr with rfl | hr2
          · rw [hs] at hsimb
            exact Bool.noConfusion hsimb
          · exact Or.inr ⟨hr2, hs⟩

/-- Claim C3 counterexample: a typo whose model replacement list is empty
(with an empty custom dictionary) is still rendered by the dialog, with
an empty displayed replacements list — the caller neither skips nor
flags it. -/
theorem c3_counterexample :
    renderedTypos [TypoSuggestion.mk ("xyz") []] [] = [(("xyz"), ([] : List String))] ∧
    (("xyz"), ([] : List String)) ∈ renderedTypos [TypoSuggestion.mk ("xyz") []] [] := by
  constructor
  · rfl
  · rw [show renderedTypos [TypoSuggestion.mk ("xyz") []] []
        = [(("xyz"), ([] : List String))] from rfl]
    exact List.mem_singleton.mpr rfl

/-- Claim C3 (amended): the dialog shows one entry per input typo —
entries with empty replacement lists included — and the displayed
replacements of each entry are exactly the model replacements together
with the similar custom-dictionary words; the displayed list is empty
precisely when the typo has no model replacements and no dictionary word
is similar to it. -/
theorem c3_shown_replacements (typos : List TypoSuggestion) (customDict : List String) :
    (renderedTypos typos customDict).length = typos.length ∧
    (∀ typo ∈ typos,
      (typo.word, allReplacements typo customDict) ∈ renderedTypos typos customDict ∧
      (∀ r, r ∈ allReplacements typo customDict
        ↔ (r ∈ typo.replacements ∨ (r ∈ customDict ∧ similarWords typo.word r = true))) ∧
      (allReplacements typo customDict = []
        ↔ (typo.replacements = [] ∧ ∀ d ∈ customDict, similarWords typo.word d = false))) := by
  refine ⟨List.length_map _ _, fun typo htypo => ⟨?_, ?_, ?_⟩⟩
  · exact List.mem_map.mpr ⟨typo, htypo, rfl⟩
  · exact fun r => mem_foldl_push typo.word customDict typo.replacements r
  · constructor
    · intro hempty
      constructor
      · rcases hrep : typo.replacements with _ | ⟨r0, rs⟩
        · rfl
        · have : r0 ∈ allReplacements typo customDict := by
            rw [allReplacements, mem_foldl_push]
            exact Or.inl (by rw [hrep]; exact List.mem_cons_self r0 rs)
          rw [hempty] at this
          exact absurd this (List.not_mem_nil r0)
      · intro d hd
        by_contra hsim
        have hsim' : similarWords typo.word d = true := by
          cases hs : similarWords typo.word d
          · exact absurd hs hsim
          · rfl
        have : d ∈ allReplacements typo customDict := by
          rw [allReplacements, mem_foldl_push]
          exact Or.inr ⟨hd, hsim'⟩
        rw [hempty] at this
        exact absurd this (List.not_mem_nil d)
    · rintro ⟨hrep, hdict⟩
      rcases hall : allReplacements typo customDict with _ | ⟨r0, rs⟩
      · rfl
      · have : r0 ∈ allReplacements typo customDict := by
          rw [hall]
          exact List.mem_cons_self r0 rs
        rw [allReplacements, mem_foldl_push] at this
        rcases this with hr | ⟨hr, hs⟩
        · rw [hrep] at hr
          exact absurd hr (List.not_mem_nil r0)
        · rw [hdict r0 hr] at hs
          exact Bool.noConfusion hs

/-- Claim C3 witness: the amended theorem applied at a concrete typo and
dictionary — `ten` is a similar dictionary word for the typo `teh`, so it
is among the displayed replacements. -/
theorem c3_witness :
    ("ten") ∈ allReplacements (TypoSuggestion.mk ("teh") [("the")]) [("ten"), ("xyz")] := by
  have h := c3_shown_replacements [TypoSuggestion.mk ("teh") [("the")]] [("ten"), ("xyz")]
  have hmem := h.2 (TypoSuggestion.mk ("teh") [("the")]) (List.mem_singleton.mpr rfl)
  exact (hmem.2.1 ("ten")).mpr (Or.inr ⟨by decide, by decide⟩)

/-- Claim C7: the similarity check of `similarWords` is symmetric — the
first-character comparison and the absolute length difference are both
symmetric in the two words. -/
theorem c7_similarWords_symm (a b : String) : similarWords a b = similarWords b a := by
  rw [similarWords, similarWords]
  have h1 : ((jsToLower a).toList.head? = (jsToLower b).toList.head?)
      ↔ ((jsToLower b).toList.head? = (jsToLower a).toList.head?) := eq_comm
  have h2 : ((((jsToLower a).length : Int)) - (((jsToLower b).length : Int))).natAbs
      = ((((jsToLower b).length : Int)) - (((jsToLower a).length : Int))).natAbs := by
    omega
  rw [decide_eq_decide.mpr h1, h2]

/-- Claim C4 counterexample: the membership test and the appended entry
use the *trimmed* word, not the word as given.  ` a ` is non-blank and
not an element of `[a]`, yet the dictionary does not grow; ` b ` on the
empty dictionary appends `b`, not ` b `. -/
theorem c4_counterexample :
    addToCustomDictionary [("a")] (" a ") = [("a")] ∧
    (addToCustomDictionary [("a")] (" a ")).length ≠ 2 ∧
    addToCustomDictionary [] (" b ") = [("b")] ∧
    addToCustomDictionary [] (" b ") ≠ [(" b ")] := by
  refine ⟨by rfl, by decide, by rfl, by decide⟩

/-- Claim C4 (amended): `addWord` operates on the trimmed word.  For
every dictionary `D` and word `w` whose trim is non-empty and not
already in `D`, the result is `D` with the trimmed word appended at
the end (existing entries kept in relative order) and its size is exactly
`|D| + 1`; when the trim is empty or already present, the dictionary is
unchanged. -/
theorem c4_addWord_trimmed (D : List String) (w : String) :
    (trimStr w ≠ ("") → trimStr w ∉ D →
      addToCustomDictionary D w = D ++ [trimStr w] ∧
      (addToCustomDictionary D w).length = D.length + 1) ∧
    (trimStr w = ("") ∨ trimStr w ∈ D → addToCustomDictionary D w = D) := by
  constructor
  · intro hne hmem
    have hcontains : ¬ (D.contains (trimStr w) = true) := fun hcc =>
      hmem (List.elem_iff.mp hcc)
    have heq : addToCustomDictionary D w = D ++ [trimStr w] := by
      rw [addToCustomDictionary, if_neg hne, if_neg hcontains]
    refine ⟨heq, ?_⟩
    rw [heq, List.length_append]
    rfl
  · rintro (hblank | hmem)
    · rw [addToCustomDictionary, if_pos hblank]
    · have hcontains : D.contains (trimStr w) = true := List.elem_iff.mpr hmem
      by_cases hblank : trimStr w = ("")
      · rw [addToCustomDictionary, if_pos hblank]
      · rw [addToCustomDictionary, if_neg hblank, if_pos hcontains]

/-- Claim C4 witness: the amended theorem at concrete inputs — ` b ` is
appended to `[a]` as `b`, and adding `a` to `[a]` is a no-op. -/
theorem c4_witness :
    addToCustomDictionary [("a")] (" b ") = [("a"), ("b")] ∧
    addToCustomDictionary [("a")] ("a") = [("a")] := by
  constructor
  · have h := (c4_addWord_trimmed [("a")] (" b ")).1 (by decide) (by decide)
    rw [h.1]
    rfl
  · exact (c4_addWord_trimmed [("a")] ("a")).2 (Or.inr (by decide))

/-- Claim C5: for `0 ≤ i < |D|`, `removeWord` returns (and persists) `D`
with exactly the entry at position `i` removed — the entries before `i`
and after `i` are kept in order — and the size decreases by exactly one;
for any index outside that range the dictionary is unchanged. -/
theorem c5_removeWord (D : List String) (i : Int) :
    (0 ≤ i → i < (D.length : Int) →
      removeFromCustomDictionary D i = D.take i.toNat ++ D.drop (i.toNat + 1) ∧
      (removeFromCustomDictionary D i).length + 1 = D.length) ∧
    (¬ (0 ≤ i ∧ i < (D.length : Int)) → removeFromCustomDictionary D i = D) := by
  constructor
  · intro h0 hlt
    have hcond : 0 ≤ i ∧ i < (D.length : Int) := ⟨h0, hlt⟩
    have heq : removeFromCustomDictionary D i = D.eraseIdx i.toNat := by
      rw [removeFromCustomDictionary, if_pos hcond]
    have hlen : i.toNat < D.length := by omega
    refine ⟨by rw [heq, List.eraseIdx_eq_take_drop_succ], ?_⟩
    rw [heq, List.length_eraseIdx, if_pos hlen]
    omega
  · intro hcond
    rw [removeFromCustomDictionary, if_neg hcond]

/-- Claim C5 witness: removing index 1 from `[a, b, c]` yields `[a, c]`;
out-of-range indices (too large, negative) are no-ops. -/
theorem c5_witness :
    removeFromCustomDictionary [("a"), ("b"), ("c")] 1 = [("a"), ("c")] ∧
    removeFromCustomDictionary [("a")] 5 = [("a")] ∧
    removeFromCustomDictionary [("a")] (-1) = [("a")] := by
  refine ⟨?_, ?_, ?_⟩
  · have h := (c5_removeWord [("a"), ("b"), ("c")] 1).1 (by decide) (by decide)
    rw [h.1]
    rfl
  · exact (c5_removeWord [("a")] 5).2 (by decide)
  · exact (c5_removeWord [("a")] (-1)).2 (by decide)

/-- Claim C6: `addWord` is idempotent — adding the same exact word twice
yields the same dictionary as adding it once, in particular one of the
same length. -/
theorem c6_addWord_idempotent (D : List String) (w : String) :
    addToCustomDictionary (addToCustomDictionary D w) w = addToCustomDictionary D w ∧
    (addToCustomDictionary (addToCustomDictionary D w) w).length
      = (addToCustomDictionary D w).length := by
  have hmain : addToCustomDictionary (addToCustomDictionary D w) w
      = addToCustomDictionary D w := by
    by_cases hblank : trimStr w = ("")
    · have hnoop : ∀ X : List String, addToCustomDictionary X w = X := fun X => by
        rw [addToCustomDictionary, if_pos hblank]
      rw [hnoop, hnoop]
    · by_cases hmem : trimStr w ∈ D
      · have hc : D.contains (trimStr w) = true := List.elem_iff.mpr hmem
        have h1 : addToCustomDictionary D w = D := by
          rw [addToCustomDictionary, if_neg hblank, if_pos hc]
        rw [h1, h1]
      · have hcontains : ¬ (D.contains (trimStr w) = true) := fun hcc =>
          hmem (List.elem_iff.mp hcc)
        have h1 : addToCustomDictionary D w = D ++ [trimStr w] := by
          rw [addToCustomDictionary, if_neg hblank, if_neg hcontains]
        have hmem2 : trimStr w ∈ D ++ [trimStr w] :=
          List.mem_append.mpr (Or.inr (List.mem_singleton.mpr rfl))
        have hc2 : (D ++ [trimStr w]).contains (trimStr w) = true := List.elem_iff.mpr hmem2
        rw [h1, addToCustomDictionary, if_neg hblank, if_pos hc2]
  exact ⟨hmain, by rw [hmain]⟩

/-- Claim C8: a reply that parses to an object with an empty `typos`
array yields zero typos, reported through the caller as the neutral
`No typos found in the selected text.` alert — a single informational
message, no error and no suggestion dialog. -/
theorem c8_empty_typos_no_findings :
    findTyposInterp ("\x7b\"typos\":[]\x7d") = TypoResult.noFindings ∧
    findTyposFlow (some ("k"))
        (HttpResponse.mk 200
          ("\x7b\"choices\":[\x7b\"message\":\x7b\"content\":\"\x7b\\\"typos\\\":[]\x7d\"\x7d\x7d]\x7d"))
        (RangeInfo.mk ("A1") 1) []
      = [Effect.alert (AlertMsg.text ("No typos found in the selected text."))] :=
  ⟨by rfl, by rfl⟩

/-- Claim C9: for every HTTP response with a status other than 200 the
client call fails with the API error carrying the status code and raw
body, the error is surfaced at the action boundary as a single alert
(`Error: API Error <status>: <body>`), and nothing is written to any
cell. -/
theorem c9_api_error_alert_no_write (key : String) (resp : HttpResponse) (range : RangeInfo)
    (customDict : List String) (hk : key ≠ ("")) (hcode : resp.code ≠ 200) :
    findTyposFlow (some key) resp range customDict
      = [Effect.alert (AlertMsg.text
          (("Error: ") ++ (("API Error ") ++ toString resp.code ++ (": ") ++ resp.body)))] ∧
    ∀ e ∈ findTyposFlow (some key) resp range customDict,
      ∀ sheetId rangeA1 value, e ≠ Effect.setValue sheetId rangeA1 value := by
  have hnot : ¬ (jsStrFalsy (some key) = true) := fun hcc => hk (eq_of_beq hcc)
  have hcall : callOpenAI resp = Except.error (CallError.apiError resp.code resp.body) := by
    rw [callOpenAI, if_pos hcode]
  have heq : findTyposFlow (some key) resp range customDict
      = [Effect.alert (AlertMsg.text
          (("Error: ") ++ (("API Error ") ++ toString resp.code ++ (": ") ++ resp.body)))] := by
    rw [findTyposFlow, if_neg hnot, hcall]
    rfl
  refine ⟨heq, ?_⟩
  intro e he sheetId rangeA1 value hcontra
  rw [heq] at he
  rw [List.mem_singleton.mp he] at hcontra
  exact Effect.noConfusion hcontra

/-- Claim C9 witness: a 401 response with body `unauthorized` produces
exactly the single alert carrying both. -/
theorem c9_witness :
    findTyposFlow (some ("k")) (HttpResponse.mk 401 ("unauthorized"))
        (RangeInfo.mk ("A1") 1) []
      = [Effect.alert (AlertMsg.text
          (("Error: ") ++ (("API Error ") ++ toString (401 : Nat) ++ (": ")
            ++ ("unauthorized"))))] :=
  (c9_api_error_alert_no_write ("k") (HttpResponse.mk 401 ("unauthorized"))
    (RangeInfo.mk ("A1") 1) [] (by decide) (by decide)).1

/-- Claim C10: the two write-back operations are extensionally equal —
for every cached pending-target state, sheet collection and input text
they perform the same resolution and the same write (including the same
silent no-ops). -/
theorem c10_writeback_equal (cache : CacheState) (sheets : List Sheet) (text : String) :
    updateCellWithCorrectedText cache sheets text
      = updateCellWithImprovedGrammar cache sheets text := rfl

end GrammarChecker
